import Mathlib

/-!
# Verification of the mydeck runtime (`src/mydeck/deck.py`)

A shallow embedding of the application/paging runtime of the mydeck
repository.  Python objects become Lean structures; mutation becomes
explicit state passing; device writes and lifecycle callbacks become
explicit event lists; Python exceptions become explicit outcome values.
Python `float` timestamps and gauge values are modelled as exact
rationals (the source only compares and scales them, so the logic is
purely order-theoretic); Python `int` is modelled as `Int` (or `Nat`
for key ids produced by the device, which are non-negative).
-/

namespace MyDeck

/-! ## Icon model: `GaugeIcon` (deck.py lines 123-193)

Only the geometry-relevant fields are modelled (`width`, `n_keys`,
`key_offset`, `horizontal`, `value`); the colour, text and font fields
feed straight into the drawing library and do not affect which shapes
are drawn.  `render` is modelled as the list of draw operations it
performs, in order; the trailing centred label text is kept as a final
`text` operation. -/

/-- Python's `int()` conversion truncates toward zero. -/
def pyInt (q : ℚ) : ℤ := if 0 ≤ q then ⌊q⌋ else -⌊-q⌋

structure GaugeIcon where
  width : ℤ := 12
  n_keys : ℤ := 1
  key_offset : ℤ := 0
  horizontal : Bool := false
  value : ℚ := 0
deriving DecidableEq

/-- `key_size = 72` in `GaugeIcon.render`. -/
def key_size : ℤ := 72

/-- `margin_size = 13` in `GaugeIcon.render`. -/
def margin_size : ℤ := 13

/-- `total_length = key_size * self.n_keys + margin_size * (self.n_keys - 1)`. -/
def GaugeIcon.total_length (g : GaugeIcon) : ℤ :=
  key_size * g.n_keys + margin_size * (g.n_keys - 1)

/-- `virtual_gauge_length = int(total_length * self.value)`. -/
def GaugeIcon.virtual_gauge_length (g : GaugeIcon) : ℤ :=
  pyInt ((g.total_length : ℚ) * g.value)

/-- `actual_gauge_length = max(0, virtual_gauge_length - key_offset * (key_size + margin_size))`. -/
def GaugeIcon.actual_gauge_length (g : GaugeIcon) : ℤ :=
  max 0 (g.virtual_gauge_length - g.key_offset * (key_size + margin_size))

/-- One drawing-library call made by `GaugeIcon.render`.  `rect` and
`line` carry the two corner / end points; `text` is the centred label
drawn last. -/
inductive DrawOp where
  | rect (x0 y0 x1 y1 : ℤ)
  | line (x0 y0 x1 y1 : ℤ)
  | text
deriving DecidableEq

/-- The fill-bar part of `GaugeIcon.render` (deck.py lines 157-179). -/
def GaugeIcon.fillOps (g : GaugeIcon) : List DrawOp :=
  let a := g.actual_gauge_length
  if a ≥ key_size then
    [.rect 0 0 g.width 71, .rect (71 - g.width) 0 71 71]
  else if a > 0 then
    if g.horizontal then
      [.rect 0 0 a g.width, .rect 0 (71 - g.width) a 71, .line a 0 a 71]
    else
      [.rect 0 (71 - a) g.width 71, .rect (71 - g.width) (71 - a) 71 71,
       .line 0 (71 - a) 71 (71 - a)]
  else []

/-- `GaugeIcon.render`: draw the fill bars, then the label text. -/
def GaugeIcon.render (g : GaugeIcon) : List DrawOp := g.fillOps ++ [.text]

/-! ## Device abstraction: `Deck.set_image` (deck.py lines 260-268)

Bitmaps are abstracted to identifiers (`Nat`); an `Icon` is abstracted
to the bitmap its `render()` produces.  `set_image` is modelled as the
multiset of `(key, bitmap)` writes performed on the device, so "each
key written exactly once" is visible in multiplicities.  Key ids are
`Int` since a Python caller may pass a negative id. -/

structure DIcon where
  rendered : ℕ
deriving DecidableEq

/-- The `image` argument of `Deck.set_image`: a raw bitmap or an icon. -/
inductive ImageArg where
  | img (bitmap : ℕ)
  | icon (i : DIcon)
deriving DecidableEq

/-- The bitmap a given image argument boils down to after rendering. -/
def ImageArg.renderedBitmap : ImageArg → ℕ
  | .img b => b
  | .icon i => i.rendered

/-- Measure used only for termination of `Deck.set_image_key`:
the icon case recurses once with the rendered bitmap. -/
def ImageArg.renderSteps : ImageArg → ℕ
  | .img _ => 0
  | .icon _ => 1

/-- `Deck.set_image` restricted to a single key id `n` with device key
count `K`: the `Icon` case re-enters with the rendered image; the
`Image` case writes the key only under the guard `0 <= n < key_count`. -/
def Deck.set_image_key (K : ℕ) (n : ℤ) : ImageArg → Multiset (ℤ × ℕ)
  | .icon i => Deck.set_image_key K n (.img i.rendered)
  | .img b => if 0 ≤ n ∧ n < (K : ℤ) then {(n, b)} else 0
  termination_by im => im.renderSteps
  decreasing_by simp [ImageArg.renderSteps]

/-- `Deck.set_image`: a single key id dispatches to `set_image_key`;
a set of ids re-enters for every id in the set. -/
def Deck.set_image (K : ℕ) : ℤ ⊕ Finset ℤ → ImageArg → Multiset (ℤ × ℕ)
  | .inl n, im => Deck.set_image_key K n im
  | .inr ns, im => (ns.val.map (fun n => Deck.set_image_key K n im)).sum

/-! ## Group (deck.py lines 348-376)

For dispatch, a child application is abstracted to its owned key set
plus an identity tag; `on_press`/`on_release` are modelled as the list
of children whose handler is invoked, in iteration order. -/

structure GApp where
  keys : Finset ℕ
  id : ℕ
deriving DecidableEq

/-- `Group.on_press`: `for app in apps: if key_number in app.key_numbers:
await app.on_press(ctx, key_number)` — the children invoked, in order. -/
def Group.on_press (apps : List GApp) (k : ℕ) : List GApp :=
  apps.filter (fun a => decide (k ∈ a.keys))

/-- `Group.on_release`: same loop as `Group.on_press`. -/
def Group.on_release (apps : List GApp) (k : ℕ) : List GApp :=
  apps.filter (fun a => decide (k ∈ a.keys))

/-! ## Pager (deck.py lines 379-442) and PagerKey (lines 445-460)

A page (one value of the Pager's dict) is abstracted to its key set, an
identity tag (Python object identity) and its `on_release` behaviour:
a `PagerKey`-backed page raises `NoSuchPageError(name)` unconditionally,
a plain page returns normally.  The Pager's mutable fields `__apps`,
`__current`, `key_numbers`, `__default` become a state record; the
dict is an insertion-ordered association list (Python dicts preserve
insertion order and `__setitem__` refuses duplicate names, so names
stay unique).  Device-facing and lifecycle actions performed by the
Pager itself are logged as `PEvent`s; the raised-and-not-caught
`NoSuchPageError` becomes an `Option String` result component. -/

/-- Result of an `on_release` call on a page: normal return, or a
raised `NoSuchPageError` carrying the page name. -/
inductive ReleaseOutcome where
  | ok
  | noSuchPage (name : String)
deriving DecidableEq

inductive ChildKind where
  | pagerKey (name : String)
  | plain
deriving DecidableEq

structure Page where
  keys : Finset ℕ
  id : ℕ
  kind : ChildKind
deriving DecidableEq

/-- `on_release` of a page: a `PagerKey` raises `NoSuchPageError(self.name)`
regardless of the key id; a plain page returns normally. -/
def Page.on_release (p : Page) (_k : ℕ) : ReleaseOutcome :=
  match p.kind with
  | .pagerKey n => .noSuchPage n
  | .plain => .ok

/-- A lifecycle / device-facing action performed by the Pager itself:
delegated `on_hide`/`on_display`/`on_press` on a page (by identity tag),
or a blank `ColorIcon()` pushed to one key during `switch`. -/
inductive PEvent where
  | hide (pageId : ℕ)
  | display (pageId : ℕ)
  | press (pageId : ℕ) (k : ℕ)
  | setBlank (k : ℕ)
deriving DecidableEq

structure PagerState where
  apps : List (String × Page)
  current : Page
  key_numbers : Finset ℕ
  defaultName : String
deriving DecidableEq

/-- Dict lookup `self.__apps[name]`, as `Option`. -/
def findPage (apps : List (String × Page)) (name : String) : Option Page :=
  (apps.find? (fun p => decide (p.1 = name))).map Prod.snd

/-- `set(x for app in apps.values() for x in app.key_numbers)`. -/
def unionKeys (apps : List (String × Page)) : Finset ℕ :=
  apps.foldr (fun a acc => a.2.keys ∪ acc) ∅

/-- `Pager.__init__`: `key_numbers` is the union of all pages' key sets,
`current` the page registered under `default` (`None` models the
`KeyError` Python raises when `default` is unregistered). -/
def Pager.init (apps : List (String × Page)) (defaultName : String) : Option PagerState :=
  (findPage apps defaultName).map fun c => ⟨apps, c, unionKeys apps, defaultName⟩

/-- `Pager.pages`: the list of registered page names. -/
def PagerState.pages (s : PagerState) : List String := s.apps.map Prod.fst

/-- `Pager.__setitem__`: raise `ValueError` (the spec's
`DuplicatePageError`) when the name is already registered, leaving the
state untouched; otherwise insert the page and extend `key_numbers`
with `|=`.  The `Bool` records whether the error was raised. -/
def PagerState.setItem (s : PagerState) (name : String) (app : Page) :
    PagerState × Bool :=
  if name ∈ s.pages then (s, true)
  else ({ s with
            apps := s.apps ++ [(name, app)]
            key_numbers := s.key_numbers ∪ app.keys }, false)

/-- `Pager.on_display`: delegate to `current`. -/
def PagerState.on_display (s : PagerState) : PagerState × List PEvent :=
  (s, [.display s.current.id])

/-- `Pager.on_hide`: delegate to `current`. -/
def PagerState.on_hide (s : PagerState) : PagerState × List PEvent :=
  (s, [.hide s.current.id])

/-- `Pager.on_press`: delegate to `current`. -/
def PagerState.on_press (s : PagerState) (k : ℕ) : PagerState × List PEvent :=
  (s, [.press s.current.id k])

/-- The actions `Pager.switch` performs when moving from `s.current` to
page `p`, in order: `on_hide` of the old page, `on_display` of the (by
then reassigned) new page, then one blank `ColorIcon()` push per key in
`old.key_numbers - new.key_numbers`.  The Python `set` of stale keys is
iterated here in ascending order; the claims proved about it are
order-independent. -/
def PagerState.switchEvents (s : PagerState) (p : Page) : List PEvent :=
  .hide s.current.id :: .display p.id ::
    ((s.current.keys \ p.keys).sort (· ≤ ·)).map .setBlank

/-- `Pager.switch(ctx, name)`: hide the old current page, reassign
`current` to the named page, display it, then push a blank `ColorIcon()`
to every stale key.  `none` models the `KeyError` from `self[name]` on
an unregistered name (every call in the source is guarded by a
membership test). -/
def PagerState.switch (s : PagerState) (name : String) :
    Option (PagerState × List PEvent) :=
  (findPage s.apps name).map fun p => ({ s with current := p }, s.switchEvents p)

/-- `Pager.on_release`: delegate to `current.on_release`; when that
raises `NoSuchPageError(n)` with `n` registered, perform `switch`;
otherwise re-raise the same signal (the `Option String` component). -/
def PagerState.on_release (s : PagerState) (k : ℕ) :
    PagerState × List PEvent × Option String :=
  match s.current.on_release k with
  | .ok => (s, [], none)
  | .noSuchPage n =>
    match s.switch n with
    | some (s', evs) => (s', evs, none)
    | none => (s, [], some n)

/-- `PagerKey` (a `StaticKey` subclass): its whole state is its key
set, bound page name and icon (abstracted to the bitmap id the icon
renders to). -/
structure PagerKey where
  keys : Finset ℕ
  name : String
  icon : ℕ
deriving DecidableEq

/-- `PagerKey.on_release` raises `NoSuchPageError(self.name)`
unconditionally. -/
def PagerKey.on_release (p : PagerKey) (_k : ℕ) : ReleaseOutcome :=
  .noSuchPage p.name

/-! ## LongPressKey (deck.py lines 463-498)

Timestamps (`time.time()` floats) are exact rationals.  `on_press`
records the press time into `__pressed_at`, fires the short-press hook,
and schedules a check `long_press_delay` later that captured the
recorded time; the check fires the long-press hook only if
`__pressed_at` still equals the captured value.  `on_release` zeroes
`__pressed_at` and fires the long- or short-release hook depending on
the elapsed time.  Hook invocations are logged as `LPEvent`s. -/

inductive LPEvent where
  | shortPress
  | longPress
  | shortRelease
  | longRelease
deriving DecidableEq

structure LPState where
  pressed_at : ℚ
deriving DecidableEq

/-- `LongPressKey.on_press` up to its suspension point: sets
`__pressed_at` to the current time `t`, invokes `on_short_press`, and
captures `at = t` for the delayed check.  Returns (new state, hook
fired, captured timestamp). -/
def LongPressKey.on_press (_s : LPState) (t : ℚ) : LPState × LPEvent × ℚ :=
  ((⟨t⟩ : LPState), .shortPress, t)

/-- The continuation of `LongPressKey.on_press` after
`asyncio.sleep(long_press_delay)`: `if self.__pressed_at == at:
await self.on_long_press(...)`. -/
def LongPressKey.check (s : LPState) (captured : ℚ) : List LPEvent :=
  if s.pressed_at = captured then [.longPress] else []

/-- `LongPressKey.on_release` at time `t`: zero `__pressed_at`, then
fire `on_long_release` iff `t - pressed_at >= long_press_delay`, else
`on_short_release`. -/
def LongPressKey.on_release (delay : ℚ) (s : LPState) (t : ℚ) :
    LPState × LPEvent :=
  ((⟨0⟩ : LPState),
   if delay ≤ t - s.pressed_at then .longRelease else .shortRelease)

/-- Scenario: press at `T`, release at `R` before the delay elapses;
the pending check runs afterwards, at `T + delay`.  The hook
invocations, in time order. -/
def LongPressKey.shortTrace (delay T R : ℚ) (s0 : LPState) : List LPEvent :=
  let pr := LongPressKey.on_press s0 T
  let re := LongPressKey.on_release delay pr.1 R
  [pr.2.1, re.2] ++ LongPressKey.check re.1 pr.2.2

/-- Scenario: press at `T`, held past the delay, so the check runs at
`T + delay`; release at `R ≥ T + delay` afterwards. -/
def LongPressKey.longTrace (delay T R : ℚ) (s0 : LPState) : List LPEvent :=
  let pr := LongPressKey.on_press s0 T
  let evs := LongPressKey.check pr.1 pr.2.2
  let re := LongPressKey.on_release delay pr.1 R
  [pr.2.1] ++ evs ++ [re.2]

/-- Scenario: press at `T1`, press again at `T2` before `T1 + delay`;
the first press's check then runs against the updated state.  Returns
the hooks fired by that stale check. -/
def LongPressKey.repressCheck (T1 T2 : ℚ) (s0 : LPState) : List LPEvent :=
  let pr1 := LongPressKey.on_press s0 T1
  let pr2 := LongPressKey.on_press pr1.1 T2
  LongPressKey.check pr2.1 pr1.2.2

/-! ## ToggleKey (deck.py lines 501-528)

`numIcons` stands for `len(self.icons)`; `hasHandler` for
`self.on_switch_handler is not None`.  `draw i` logs a redraw showing
icon index `i`; `hook i` logs an `on_switch_handler` invocation with
state index `i`. -/

inductive TEvent where
  | draw (i : ℕ)
  | hook (i : ℕ)
deriving DecidableEq

structure ToggleState where
  numIcons : ℕ
  state : ℕ
  hasHandler : Bool
deriving DecidableEq

/-- `ToggleKey.on_press`: advance the state modulo the icon count,
redraw, then invoke the switch handler (when set) with the new state. -/
def ToggleState.on_press (s : ToggleState) : ToggleState × List TEvent :=
  let s' := (s.state + 1) % s.numIcons
  ({ s with state := s' },
   .draw s' :: if s.hasHandler then [.hook s'] else [])

/-- `N` successive `on_press` calls. -/
def ToggleState.pressN (s : ToggleState) : ℕ → ToggleState
  | 0 => s
  | n + 1 => (s.pressN n).on_press.1

/-! ## Concrete pages and pager states used by the witness theorems -/

def pA : Page := ⟨{0, 1, 2}, 1, .plain⟩

def pB : Page := ⟨{1, 3}, 2, .plain⟩

def pNavB : Page := ⟨{0}, 3, .pagerKey "B"⟩

def pNavC : Page := ⟨{0}, 4, .pagerKey "C"⟩

def sAB : PagerState := ⟨[("A", pA), ("B", pB)], pA, {0, 1, 2, 3}, "A"⟩

def sNav : PagerState := ⟨[("A", pNavB), ("B", pB)], pNavB, {0, 1, 3}, "A"⟩

def sNavBad : PagerState := ⟨[("A", pNavC)], pNavC, {0}, "A"⟩

/-! ## Helper lemmas -/

lemma pyInt_nonneg_eq_floor {q : ℚ} (h : 0 ≤ q) : pyInt q = ⌊q⌋ := by
  simp [pyInt, h]

lemma pyInt_mono {a b : ℚ} (ha : 0 ≤ a) (hab : a ≤ b) : pyInt a ≤ pyInt b := by
  rw [pyInt_nonneg_eq_floor ha, pyInt_nonneg_eq_floor (ha.trans hab)]
  exact Int.floor_le_floor hab

lemma set_image_key_eq (K : ℕ) (n : ℤ) (im : ImageArg) :
    Deck.set_image_key K n im =
      if 0 ≤ n ∧ n < (K : ℤ) then {(n, im.renderedBitmap)} else 0 := by
  cases im <;> simp [Deck.set_image_key, ImageArg.renderedBitmap]

lemma sum_map_ite_singleton {β : Type} (m : Multiset ℤ) (p : ℤ → Prop)
    [DecidablePred p] (f : ℤ → β) :
    (m.map fun n => if p n then ({f n} : Multiset β) else 0).sum =
      (m.filter p).map f := by
  induction m using Multiset.induction_on with
  | empty => simp
  | cons a s ih => by_cases h : p a <;> simp [h, ih]

/-! ## Claim theorems -/

/-- C8: for a single-key `GaugeIcon` (`n_keys = 1`, `key_offset = 0`),
`render` with `value = 0` draws no fill bars (only the label text);
`render` with `value = 1` draws the two full-length side bars; and the
computed fill length (`actual_gauge_length`) is monotonically
non-decreasing in `value` on `[0, 1]`, all other fields held fixed. -/
theorem gauge_fill_spec (w : ℤ) (hz : Bool) :
    (GaugeIcon.render ⟨w, 1, 0, hz, 0⟩ = [.text]) ∧
    (GaugeIcon.render ⟨w, 1, 0, hz, 1⟩ =
      [.rect 0 0 w 71, .rect (71 - w) 0 71 71, .text]) ∧
    (∀ v₁ v₂ : ℚ, 0 ≤ v₁ → v₁ ≤ v₂ → v₂ ≤ 1 →
      GaugeIcon.actual_gauge_length ⟨w, 1, 0, hz, v₁⟩ ≤
        GaugeIcon.actual_gauge_length ⟨w, 1, 0, hz, v₂⟩) := by
  have ht : ∀ v : ℚ, GaugeIcon.actual_gauge_length ⟨w, 1, 0, hz, v⟩ =
      max 0 (pyInt (72 * v)) := by
    intro v
    norm_num [GaugeIcon.actual_gauge_length, GaugeIcon.virtual_gauge_length,
      GaugeIcon.total_length, key_size, margin_size]
  refine ⟨?_, ?_, ?_⟩
  · have h0 : GaugeIcon.actual_gauge_length ⟨w, 1, 0, hz, 0⟩ = 0 := by
      rw [ht]; norm_num [pyInt]
    simp [GaugeIcon.render, GaugeIcon.fillOps, h0, key_size]
  · have h1 : GaugeIcon.actual_gauge_length ⟨w, 1, 0, hz, 1⟩ = 72 := by
      rw [ht]; norm_num [pyInt]
    simp [GaugeIcon.render, GaugeIcon.fillOps, h1, key_size]
  · intro v₁ v₂ h0 h12 _h21
    rw [ht, ht]
    refine max_le_max le_rfl (pyInt_mono ?_ ?_)
    · exact mul_nonneg (by norm_num) h0
    · exact mul_le_mul_of_nonneg_left h12 (by norm_num)

/-- Witness for C8 at `width = 12`, vertical, values `0`, `1/4 ≤ 1/2`. -/
theorem gauge_fill_spec_witness :
    GaugeIcon.render ⟨12, 1, 0, false, 0⟩ = [DrawOp.text] ∧
    GaugeIcon.actual_gauge_length ⟨12, 1, 0, false, (1/4 : ℚ)⟩ ≤
      GaugeIcon.actual_gauge_length ⟨12, 1, 0, false, (1/2 : ℚ)⟩ :=
  ⟨(gauge_fill_spec 12 false).1,
   (gauge_fill_spec 12 false).2.2 (1/4) (1/2) (by norm_num) (by norm_num)
     (by norm_num)⟩

/-- C7: for a `Deck` with key count `K`, `set_image` with a single key
id outside `[0, K)` performs no device write; with an id in `[0, K)` it
writes exactly that key (an `Icon` argument being rendered to its
bitmap first); and with a set of ids it writes exactly the ids of the
set lying in `[0, K)`, each once. -/
theorem deck_set_image_spec (K : ℕ) :
    (∀ (n : ℤ) (im : ImageArg), ¬(0 ≤ n ∧ n < (K : ℤ)) →
        Deck.set_image K (.inl n) im = 0) ∧
    (∀ (n : ℤ) (im : ImageArg), 0 ≤ n → n < (K : ℤ) →
        Deck.set_image K (.inl n) im = {(n, im.renderedBitmap)}) ∧
    (∀ (S : Finset ℤ) (im : ImageArg),
        Deck.set_image K (.inr S) im =
          (S.filter (fun n => 0 ≤ n ∧ n < (K : ℤ))).val.map
            (fun n => (n, im.renderedBitmap))) := by
  refine ⟨?_, ?_, ?_⟩
  · intro n im h
    simp [Deck.set_image, set_image_key_eq, h]
  · intro n im h1 h2
    simp [Deck.set_image, set_image_key_eq, h1, h2]
  · intro S im
    rw [Finset.filter_val]
    simp only [Deck.set_image, set_image_key_eq]
    exact sum_map_ite_singleton S.val _ _

/-- Witness for C7 at `K = 15`: id `20` is ignored, id `3` with an icon
is rendered and written, and a mixed set writes only its in-range ids. -/
theorem deck_set_image_spec_witness :
    Deck.set_image 15 (.inl 20) (.img 5) = 0 ∧
    Deck.set_image 15 (.inl 3) (.icon ⟨7⟩) = {((3 : ℤ), 7)} ∧
    Deck.set_image 15 (.inr {-1, 3, 20}) (.icon ⟨7⟩) =
      (({-1, 3, 20} : Finset ℤ).filter (fun n => 0 ≤ n ∧ n < (15 : ℤ))).val.map
        (fun n => (n, 7)) :=
  ⟨(deck_set_image_spec 15).1 20 (.img 5) (by decide),
   (deck_set_image_spec 15).2.1 3 (.icon ⟨7⟩) (by decide) (by decide),
   (deck_set_image_spec 15).2.2 {-1, 3, 20} (.icon ⟨7⟩)⟩

/-- With pairwise-disjoint key sets, the dispatch filter of `Group`
keeps exactly the one child owning `k`. -/
lemma filter_owner_eq_single (apps : List GApp) (k : ℕ)
    (hd : apps.Pairwise (fun a b => a.keys ∩ b.keys = ∅))
    (a : GApp) (ha : a ∈ apps) (hk : k ∈ a.keys) :
    apps.filter (fun x => decide (k ∈ x.keys)) = [a] := by
  induction apps with
  | nil => cases ha
  | cons b t ih =>
    rw [List.pairwise_cons] at hd
    rcases List.mem_cons.mp ha with rfl | hat
    · have hnil : t.filter (fun x => decide (k ∈ x.keys)) = [] := by
        rw [List.filter_eq_nil_iff]
        intro x hx
        simp only [decide_eq_true_eq]
        intro hkx
        have hmem : k ∈ a.keys ∩ x.keys := Finset.mem_inter.mpr ⟨hk, hkx⟩
        rw [hd.1 x hx] at hmem
        exact absurd hmem (Finset.not_mem_empty k)
      simp [List.filter_cons, hk, hnil]
    · have hkb : k ∉ b.keys := by
        intro hkb
        have hmem : k ∈ b.keys ∩ a.keys := Finset.mem_inter.mpr ⟨hkb, hk⟩
        rw [hd.1 a hat] at hmem
        exact absurd hmem (Finset.not_mem_empty k)
      rw [List.filter_cons_of_neg (by simpa using hkb)]
      exact ih hd.2 hat

/-- C2: for a `Group` whose children have pairwise-disjoint key sets,
`on_press` (and likewise `on_release`) invokes exactly the one child
whose key set contains the key id, and no child when the id is owned by
no child. -/
theorem group_dispatch_spec (apps : List GApp) (k : ℕ)
    (hd : apps.Pairwise (fun a b => a.keys ∩ b.keys = ∅)) :
    (∀ a ∈ apps, k ∈ a.keys →
      Group.on_press apps k = [a] ∧ Group.on_release apps k = [a]) ∧
    ((∀ a ∈ apps, k ∉ a.keys) →
      Group.on_press apps k = [] ∧ Group.on_release apps k = []) := by
  constructor
  · intro a ha hk
    exact ⟨filter_owner_eq_single apps k hd a ha hk,
      filter_owner_eq_single apps k hd a ha hk⟩
  · intro h
    have hnil : apps.filter (fun x => decide (k ∈ x.keys)) = [] := by
      rw [List.filter_eq_nil_iff]
      intro x hx
      simpa using h x hx
    exact ⟨hnil, hnil⟩

/-- Witness for C2: key `2` goes to the second child only, key `5` to
no child. -/
theorem group_dispatch_spec_witness :
    Group.on_press [(⟨{0, 1}, 10⟩ : GApp), ⟨{2}, 20⟩] 2 = [⟨{2}, 20⟩] ∧
    Group.on_press [(⟨{0, 1}, 10⟩ : GApp), ⟨{2}, 20⟩] 5 = [] :=
  ⟨((group_dispatch_spec [⟨{0, 1}, 10⟩, ⟨{2}, 20⟩] 2 (by decide)).1 ⟨{2}, 20⟩
      (by decide) (by decide)).1,
   ((group_dispatch_spec [⟨{0, 1}, 10⟩, ⟨{2}, 20⟩] 5 (by decide)).2 (by decide)).1⟩

/-- C4: a press at `T` released at `R < T + delay` fires the
short-press then the short-release hooks and the pending check fires no
long-press hook (the whole trace is those two events); a press held for
at least `delay` fires short-press, then long-press, and its release
fires long-release; a second press at `T2` before `T1 + delay`
invalidates the first press's pending check by timestamp comparison, so
the stale check is a no-op. -/
theorem longpress_spec (delay T R T2 : ℚ) (s0 : LPState) :
    (0 < T → T ≤ R → R - T < delay →
      LongPressKey.shortTrace delay T R s0 = [.shortPress, .shortRelease]) ∧
    (delay ≤ R - T →
      LongPressKey.longTrace delay T R s0 =
        [.shortPress, .longPress, .longRelease]) ∧
    (T < T2 → T2 < T + delay →
      LongPressKey.repressCheck T T2 s0 = []) := by
  refine ⟨?_, ?_, ?_⟩
  · intro hT _hTR hRd
    have h1 : ¬delay ≤ R - T := not_le.mpr hRd
    simp [LongPressKey.shortTrace, LongPressKey.on_press,
      LongPressKey.on_release, LongPressKey.check, h1, hT.ne]
  · intro hd
    simp [LongPressKey.longTrace, LongPressKey.on_press,
      LongPressKey.on_release, LongPressKey.check, hd]
  · intro h12 _h2d
    simp [LongPressKey.repressCheck, LongPressKey.on_press,
      LongPressKey.check, h12.ne']

/-- Witness for C4 at `delay = 1`: release at `3/2` after a press at
`1` is short; release at `2` is long; a re-press at `3/2` blanks the
stale check. -/
theorem longpress_spec_witness :
    LongPressKey.shortTrace 1 1 (3/2) ⟨0⟩ = [.shortPress, .shortRelease] ∧
    LongPressKey.longTrace 1 1 2 ⟨0⟩ =
      [.shortPress, .longPress, .longRelease] ∧
    LongPressKey.repressCheck 1 (3/2) ⟨0⟩ = [] :=
  ⟨(longpress_spec 1 1 (3/2) 0 ⟨0⟩).1 (by norm_num) (by norm_num) (by norm_num),
   (longpress_spec 1 1 2 0 ⟨0⟩).2.1 (by norm_num),
   (longpress_spec 1 1 2 (3/2) ⟨0⟩).2.2 (by norm_num) (by norm_num)⟩

/-- `on_press` never changes the icon count. -/
lemma pressN_numIcons (s : ToggleState) (N : ℕ) :
    (s.pressN N).numIcons = s.numIcons := by
  induction N with
  | zero => rfl
  | succ n ih => simp [ToggleState.pressN, ToggleState.on_press, ih]

/-- C6: a `ToggleKey` with `M ≥ 1` icons starting in state `0` is in
state `N % M` after `N` presses; and each press with the
switch-notification hook set advances the state, redraws, then invokes
the hook exactly once with the new state index. -/
theorem toggle_spec (M N : ℕ) (hh : Bool) (hM : 1 ≤ M) :
    (ToggleState.pressN ⟨M, 0, hh⟩ N).state = N % M ∧
    (∀ s : ToggleState, s.hasHandler = true →
      s.on_press = ({ s with state := (s.state + 1) % s.numIcons },
        [.draw ((s.state + 1) % s.numIcons),
         .hook ((s.state + 1) % s.numIcons)])) := by
  constructor
  · induction N with
    | zero => simp [ToggleState.pressN]
    | succ n ih =>
      have hni := pressN_numIcons (⟨M, 0, hh⟩ : ToggleState) n
      simp [ToggleState.pressN, ToggleState.on_press, hni, ih, Nat.mod_add_mod]
  · intro s hs
    simp [ToggleState.on_press, hs]

/-- Witness for C6: seven presses on a three-state toggle land in state
`7 % 3`, and one press from state `1` draws then notifies state `2`. -/
theorem toggle_spec_witness :
    (ToggleState.pressN ⟨3, 0, true⟩ 7).state = 7 % 3 ∧
    ToggleState.on_press ⟨3, 1, true⟩ = (⟨3, 2, true⟩, [.draw 2, .hook 2]) := by
  refine ⟨(toggle_spec 3 7 true (by decide)).1, ?_⟩
  have h := (toggle_spec 3 7 true (by decide)).2 ⟨3, 1, true⟩ rfl
  simpa using h

lemma findPage_isSome (apps : List (String × Page)) (n : String) :
    (findPage apps n).isSome ↔ n ∈ apps.map Prod.fst := by
  unfold findPage
  cases h : apps.find? (fun p => decide (p.1 = n)) with
  | none =>
    rw [List.find?_eq_none] at h
    simp only [Option.map_none', Option.isSome_none, Bool.false_eq_true,
      false_iff]
    intro hmem
    obtain ⟨x, hx, hfst⟩ := List.mem_map.mp hmem
    exact absurd (by simpa using hfst) (by simpa using h x hx)
  | some x =>
    simp only [Option.map_some', Option.isSome_some, true_iff]
    exact List.mem_map.mpr
      ⟨x, List.mem_of_find?_eq_some h, by simpa using List.find?_some h⟩

lemma findPage_eq_none (apps : List (String × Page)) (n : String) :
    findPage apps n = none ↔ n ∉ apps.map Prod.fst := by
  rw [← Option.not_isSome_iff_eq_none, findPage_isSome]

lemma findPage_append_right (apps : List (String × Page)) (n : String)
    (a : Page) (h : n ∉ apps.map Prod.fst) :
    findPage (apps ++ [(n, a)]) n = some a := by
  induction apps with
  | nil => simp [findPage]
  | cons b t ih =>
    simp only [List.map_cons, List.mem_cons, not_or] at h
    rw [List.cons_append]
    show ((b :: (t ++ [(n, a)])).find? (fun p => decide (p.1 = n))).map Prod.snd
      = some a
    rw [List.find?_cons_of_neg _ (by simpa using fun he => h.1 he.symm)]
    exact ih h.2

lemma unionKeys_append (l₁ l₂ : List (String × Page)) :
    unionKeys (l₁ ++ l₂) = unionKeys l₁ ∪ unionKeys l₂ := by
  induction l₁ with
  | nil => simp [unionKeys]
  | cons a t ih => simp [unionKeys, Finset.union_assoc] at ih ⊢; rw [ih]

lemma switch_key_numbers (s : PagerState) (n : String) (s' : PagerState)
    (evs : List PEvent) (h : s.switch n = some (s', evs)) :
    s'.key_numbers = s.key_numbers := by
  cases hf : findPage s.apps n with
  | none => rw [PagerState.switch, hf] at h; cases h
  | some p =>
    simp only [PagerState.switch, hf, Option.map_some', Option.some.injEq,
      Prod.mk.injEq] at h
    rw [← h.1]

/-- C1: for a registered page name `X`, `Pager.switch` succeeds, makes
the page registered under `X` current, performs — in order — `on_hide`
of the old page, `on_display` of the new page (on the reassigned
`current`), then pushes the blank icon exactly once to every key owned
by the old page but not the new one, and never to a key of the new
page. -/
theorem pager_switch_spec (s : PagerState) (X : String) (p : Page)
    (h : findPage s.apps X = some p) :
    s.switch X = some ({ s with current := p }, s.switchEvents p) ∧
    ({ s with current := p } : PagerState).current = p ∧
    (∀ k ∈ s.current.keys \ p.keys,
      (s.switchEvents p).count (PEvent.setBlank k) = 1) ∧
    (∀ k ∈ p.keys, PEvent.setBlank k ∉ s.switchEvents p) := by
  have hinj : Function.Injective PEvent.setBlank := fun a b hab => by
    injection hab
  refine ⟨by simp [PagerState.switch, h], rfl, ?_, ?_⟩
  · intro k hk
    rw [PagerState.switchEvents,
      List.count_cons_of_ne (fun hc => by cases hc),
      List.count_cons_of_ne (fun hc => by cases hc)]
    refine List.count_eq_one_of_mem ((Finset.sort_nodup _ _).map hinj) ?_
    exact List.mem_map_of_mem _ ((Finset.mem_sort _).mpr hk)
  · intro k hk hmem
    rw [PagerState.switchEvents] at hmem
    rcases List.mem_cons.mp hmem with hc | hmem'
    · cases hc
    rcases List.mem_cons.mp hmem' with hc | hmem''
    · cases hc
    obtain ⟨x, hx, hxe⟩ := List.mem_map.mp hmem''
    obtain rfl : x = k := hinj hxe
    have := (Finset.mem_sort (α := ℕ) (· ≤ ·)).mp hx
    exact (Finset.mem_sdiff.mp this).2 hk

/-- Witness for C1: switching `sAB` from page `A` to page `B` makes
`pB` current and blanks the stale key `0` exactly once. -/
theorem pager_switch_spec_witness :
    sAB.switch "B" = some ({ sAB with current := pB }, sAB.switchEvents pB) ∧
    (sAB.switchEvents pB).count (PEvent.setBlank 0) = 1 :=
  ⟨(pager_switch_spec sAB "B" pB (by decide)).1,
   (pager_switch_spec sAB "B" pB (by decide)).2.2.1 0 (by decide)⟩

/-- C3: a `PagerKey` bound to page name `X` raises the page-switch
signal carrying `X` on every release, whatever its state and whichever
key was released; a `Pager` receiving that signal from its current page
switches when `X` is one of its registered page names and re-raises the
same signal unchanged otherwise. -/
theorem page_signal_spec :
    (∀ (p : PagerKey) (k : ℕ),
      p.on_release k = ReleaseOutcome.noSuchPage p.name) ∧
    (∀ (s : PagerState) (k : ℕ) (X : String) (p : Page),
      s.current.on_release k = ReleaseOutcome.noSuchPage X →
      findPage s.apps X = some p →
      s.on_release k = ({ s with current := p }, s.switchEvents p, none)) ∧
    (∀ (s : PagerState) (k : ℕ) (X : String),
      s.current.on_release k = ReleaseOutcome.noSuchPage X →
      X ∉ s.pages →
      s.on_release k = (s, [], some X)) := by
  refine ⟨fun p k => rfl, ?_, ?_⟩
  · intro s k X p hrel hfind
    simp [PagerState.on_release, hrel, PagerState.switch, hfind]
  · intro s k X hrel hX
    have hnone : findPage s.apps X = none := (findPage_eq_none _ _).mpr hX
    simp [PagerState.on_release, hrel, PagerState.switch, hnone]

/-- Witness for C3: a concrete `PagerKey` raises the signal for `"B"`,
and the pager `sNav` catches it and switches to `pB`. -/
theorem page_signal_spec_witness :
    PagerKey.on_release ⟨{0}, "B", 9⟩ 5 = ReleaseOutcome.noSuchPage "B" ∧
    sNav.on_release 0 = ({ sNav with current := pB }, sNav.switchEvents pB, none) :=
  ⟨page_signal_spec.1 ⟨{0}, "B", 9⟩ 5,
   page_signal_spec.2.1 sNav 0 "B" pB (by decide) (by decide)⟩

/-- C9: when `Pager.on_release` receives a page-switch signal for an
unregistered name, the call leaves the pager state unchanged (same
current page), performs no hide/display and repaints no keys (its event
list is empty), and re-raises the signal. -/
theorem pager_release_unknown_atomic (s : PagerState) (k : ℕ) (X : String)
    (hrel : s.current.on_release k = ReleaseOutcome.noSuchPage X)
    (hX : X ∉ s.pages) :
    s.on_release k = (s, [], some X) ∧
    (s.on_release k).1.current = s.current := by
  have hnone : findPage s.apps X = none := (findPage_eq_none _ _).mpr hX
  have hmain : s.on_release k = (s, [], some X) := by
    simp [PagerState.on_release, hrel, PagerState.switch, hnone]
  exact ⟨hmain, by rw [hmain]⟩

/-- Witness for C9: `sNavBad`'s leaf signals the unregistered page
`"C"`; the call is a no-op that re-raises. -/
theorem pager_release_unknown_atomic_witness :
    sNavBad.on_release 0 = (sNavBad, [], some "C") ∧
    (sNavBad.on_release 0).1.current = sNavBad.current :=
  pager_release_unknown_atomic sNavBad 0 "C" (by decide) (by decide)

/-- C5: `Pager.__setitem__` raises (the spec's `DuplicatePageError`,
a `ValueError` in the source) iff the name is already registered; when
it raises, the page map and the owned key set are unchanged; when it
succeeds, the page map afterwards maps the name to the new page. -/
theorem pager_setitem_spec (s : PagerState) (name : String) (app : Page) :
    ((s.setItem name app).2 = true ↔ name ∈ s.pages) ∧
    (name ∈ s.pages → s.setItem name app = (s, true)) ∧
    (name ∉ s.pages →
      (s.setItem name app).2 = false ∧
      findPage (s.setItem name app).1.apps name = some app) := by
  by_cases h : name ∈ s.pages
  · exact ⟨by simp [PagerState.setItem, h],
      fun _ => by simp [PagerState.setItem, h],
      fun hcon => absurd h hcon⟩
  · refine ⟨by simp [PagerState.setItem, h], fun hcon => absurd hcon h,
      fun _ => ⟨by simp [PagerState.setItem, h], ?_⟩⟩
    simp only [PagerState.setItem, if_neg h]
    exact findPage_append_right s.apps name app h

/-- Witness for C5: re-registering `"A"` on `sAB` raises and leaves the
state untouched; registering fresh `"C"` maps `"C"` to the new page. -/
theorem pager_setitem_spec_witness :
    sAB.setItem "A" pB = (sAB, true) ∧
    findPage (sAB.setItem "C" pNavC).1.apps "C" = some pNavC :=
  ⟨(pager_setitem_spec sAB "A" pB).2.1 (by decide),
   ((pager_setitem_spec sAB "C" pNavC).2.2 (by decide)).2⟩

/-- C10: the Pager's owned key set is exactly the union of its pages'
key sets after construction; registering a fresh page adds that page's
keys; the containment invariant is preserved by registration; and
`on_display`, `on_hide`, `on_press`, `on_release` and `switch` leave
the owned key set unchanged. -/
theorem pager_key_numbers_invariant :
    (∀ (apps : List (String × Page)) (d : String) (s : PagerState),
      Pager.init apps d = some s → s.key_numbers = unionKeys apps) ∧
    (∀ (s : PagerState) (name : String) (app : Page), name ∉ s.pages →
      (s.setItem name app).1.key_numbers = s.key_numbers ∪ app.keys) ∧
    (∀ (s : PagerState) (name : String) (app : Page),
      unionKeys s.apps ⊆ s.key_numbers →
      unionKeys (s.setItem name app).1.apps ⊆ (s.setItem name app).1.key_numbers) ∧
    (∀ s : PagerState, s.on_display.1.key_numbers = s.key_numbers) ∧
    (∀ s : PagerState, s.on_hide.1.key_numbers = s.key_numbers) ∧
    (∀ (s : PagerState) (k : ℕ), (s.on_press k).1.key_numbers = s.key_numbers) ∧
    (∀ (s : PagerState) (k : ℕ), (s.on_release k).1.key_numbers = s.key_numbers) ∧
    (∀ (s : PagerState) (n : String) (s' : PagerState) (evs : List PEvent),
      s.switch n = some (s', evs) → s'.key_numbers = s.key_numbers) := by
  refine ⟨?_, ?_, ?_, fun s => rfl, fun s => rfl, fun s k => rfl, ?_, ?_⟩
  · intro apps d s h
    cases hf : findPage apps d with
    | none => rw [Pager.init, hf] at h; cases h
    | some c =>
      simp only [Pager.init, hf, Option.map_some', Option.some.injEq] at h
      rw [← h]
  · intro s name app h
    simp [PagerState.setItem, h]
  · intro s name app hsub
    by_cases h : name ∈ s.pages
    · simpa [PagerState.setItem, h] using hsub
    · simp only [PagerState.setItem, if_neg h]
      rw [unionKeys_append]
      have h2 : unionKeys [(name, app)] = app.keys := by simp [unionKeys]
      rw [h2]
      exact Finset.union_subset_union hsub (le_refl _)
  · intro s k
    cases hrel : s.current.on_release k with
    | ok => simp [PagerState.on_release, hrel]
    | noSuchPage n =>
      cases hsw : s.switch n with
      | none => simp [PagerState.on_release, hrel, hsw]
      | some pr =>
        rcases pr with ⟨s', evs⟩
        simp only [PagerState.on_release, hrel, hsw]
        exact switch_key_numbers s n s' evs hsw
  · intro s n s' evs h
    exact switch_key_numbers s n s' evs h

/-- Witness for C10 on `sAB`: construction yields exactly the union of
page key sets; registering `"C"` adds its keys and preserves the
containment invariant; `switch` keeps the key set. -/
theorem pager_key_numbers_invariant_witness :
    (⟨sAB.apps, pA, unionKeys sAB.apps, "A"⟩ : PagerState).key_numbers =
      unionKeys sAB.apps ∧
    (sAB.setItem "C" pNavC).1.key_numbers = sAB.key_numbers ∪ pNavC.keys ∧
    unionKeys (sAB.setItem "C" pNavC).1.apps ⊆ (sAB.setItem "C" pNavC).1.key_numbers ∧
    ({ sAB with current := pB } : PagerState).key_numbers = sAB.key_numbers :=
  ⟨pager_key_numbers_invariant.1 sAB.apps "A"
     ⟨sAB.apps, pA, unionKeys sAB.apps, "A"⟩ rfl,
   pager_key_numbers_invariant.2.1 sAB "C" pNavC (by decide),
   pager_key_numbers_invariant.2.2.1 sAB "C" pNavC (by decide),
   pager_key_numbers_invariant.2.2.2.2.2.2.2 sAB "B" { sAB with current := pB }
     (sAB.switchEvents pB) rfl⟩

end MyDeck
